import Mathlib

set_option maxRecDepth 16384

/-!
Verification development for the TMSG search-and-extraction pipeline
(`src/main.py`).  The Python source is shallowly embedded: each pure
function is translated to an executable Lean definition keeping the
source's name; the streaming HTML parser becomes an explicit state
machine over tag events (the event granularity at which the source class
is itself defined, via `handle_starttag` / `handle_endtag` /
`handle_data`); the network-dependent fetchers are modelled over an
abstract response oracle per (endpoint, category) combination.  Strings
are modelled over their character lists; the numeric value in a size
string is handled exactly (the source's float arithmetic is exact on all
inputs considered here).  The embedding covers the ASCII fragment of the
`urllib` helpers the source calls, which is the fragment all inputs in
this development live in.
-/

namespace TMSG

/-! ### Character helpers (ASCII fragment of the Python string routines) -/

/-- Python `\s` whitespace class, restricted to ASCII (on non-ASCII
text the regex's `\s` additionally matches Unicode whitespace, which is
outside this model; theorems quantifying over inputs therefore restrict
to ASCII text). -/
def pyIsSpace (c : Char) : Bool :=
  c = ' ' || c = '\t' || c = '\n' || c = '\x0d' || c = '\x0b' || c = '\x0c'

/-- ASCII text: every character below code point 128. -/
def asciiOnly (s : String) : Prop :=
  ∀ c ∈ s.data, c.toNat < 128

instance (s : String) : Decidable (asciiOnly s) :=
  inferInstanceAs (Decidable (∀ c ∈ s.data, c.toNat < 128))

/-- Python `str.strip()`: drop leading and trailing whitespace. -/
def pyStrip (s : String) : String :=
  String.mk (((s.data.dropWhile pyIsSpace).reverse.dropWhile pyIsSpace).reverse)

/-- Python `str.isdigit()` on ASCII text: non-empty and all decimal digits. -/
def pyIsDigitStr (s : String) : Bool :=
  !s.data.isEmpty && s.data.all Char.isDigit

/-- Python `str.lower()` on ASCII text, character by character. -/
def pyLower (s : String) : String :=
  String.mk (s.data.map Char.toLower)

/-- Python `str.startswith`, over the character lists. -/
def pyStartsWith (s pre : String) : Bool :=
  pre.data.isPrefixOf s.data

/-- Value of a decimal digit run, most significant first. -/
def digitsToNat (ds : List Char) : Nat :=
  ds.foldl (fun a c => 10 * a + (c.toNat - '0'.toNat)) 0

/-! ### Size normalizer: `parse_size_bytes` (src/main.py lines 39-57)

The source runs `re.search(r"Size ([0-9]+(?:\.[0-9]+)?)\s*([A-Za-z]+)", text)`.
For this pattern greedy longest-run matching agrees with the regex
engine's backtracking semantics (each quantified class is followed by a
class disjoint from it), so the search is modelled as: try a greedy
match at each position, left to right. -/

/-- Attempt the size regex at the head of `cs`: literal `Size `, one or
more digits, an optional fraction (a dot followed by one or more
digits), any whitespace, one or more ASCII letters.  Returns the integer
digits, fraction digits and unit letters. -/
def matchSizeAt (cs : List Char) : Option (List Char × List Char × List Char) :=
  if "Size ".data.isPrefixOf cs then
    let rest0 := cs.drop 5
    let ds := rest0.takeWhile Char.isDigit
    if ds.isEmpty then none
    else
      let rest1 := rest0.dropWhile Char.isDigit
      let frPair : List Char × List Char :=
        match rest1 with
        | '.' :: r2 =>
          let fs := r2.takeWhile Char.isDigit
          if fs.isEmpty then ([], rest1) else (fs, r2.dropWhile Char.isDigit)
        | _ => ([], rest1)
      let rest3 := frPair.2.dropWhile pyIsSpace
      let us := rest3.takeWhile Char.isAlpha
      if us.isEmpty then none else some (ds, frPair.1, us)
  else none

/-- Leftmost match of the size regex, as `re.search` finds it. -/
def findSize : List Char → Option (List Char × List Char × List Char)
  | [] => none
  | c :: rest =>
    match matchSizeAt (c :: rest) with
    | some m => some m
    | none => findSize rest

/-- The unit table of `parse_size_bytes`: `.get(unit, 1)` — unknown
units scale by 1. -/
def unitScale (unit : String) : Nat :=
  if unit = "b" then 1
  else if unit = "kib" then 1024
  else if unit = "kb" then 1024
  else if unit = "mib" then 1024 ^ 2
  else if unit = "mb" then 1024 ^ 2
  else if unit = "gib" then 1024 ^ 3
  else if unit = "gb" then 1024 ^ 3
  else if unit = "tib" then 1024 ^ 4
  else if unit = "tb" then 1024 ^ 4
  else 1

/-- Model of `parse_size_bytes` (src/main.py:39).  The source computes
`int(float(number) * scale)`; the model computes the exact floor
`digits * scale / 10 ^ fractionLength` in `Nat`.  Float conversion can
round the decimal literal (and overflows for enormous ones), so a value
is only ever asserted of this definition at inputs whose float
conversion is exact; the no-match branch involves no float at all. -/
def parse_size_bytes (text : String) : Nat :=
  match findSize text.data with
  | none => 0
  | some (ds, fs, us) =>
    digitsToNat (ds ++ fs) * unitScale (pyLower (String.mk us)) / 10 ^ fs.length

/-! ### Percent decoding / `parse_qs` (ASCII fragment of `urllib.parse`) -/

/-- Value of one hex digit, if any. -/
def hexVal (c : Char) : Option Nat :=
  if '0' ≤ c ∧ c ≤ '9' then some (c.toNat - '0'.toNat)
  else if 'a' ≤ c ∧ c ≤ 'f' then some (c.toNat - 'a'.toNat + 10)
  else if 'A' ≤ c ∧ c ≤ 'F' then some (c.toNat - 'A'.toNat + 10)
  else none

/-- Model of `urllib.parse.unquote` on ASCII data: `%XX` hex escapes are decoded,
malformed escapes are kept literally. -/
def unquoteChars : List Char → List Char
  | [] => []
  | '%' :: a :: b :: rest =>
    match hexVal a, hexVal b with
    | some x, some y => Char.ofNat (16 * x + y) :: unquoteChars rest
    | _, _ => '%' :: unquoteChars (a :: b :: rest)
  | c :: rest => c :: unquoteChars rest

/-- The `parse_qsl` treatment of one name or value: `+` becomes a space,
then percent escapes are decoded. -/
def qsUnquote (s : String) : String :=
  String.mk (unquoteChars (s.data.map fun c => if c = '+' then ' ' else c))

/-- Split at the first `=`, like Python `split("=", 1)`. -/
def splitFirstEq : List Char → Option (List Char × List Char)
  | [] => none
  | '=' :: rest => some ([], rest)
  | c :: rest =>
    match splitFirstEq rest with
    | some (k, v) => some (c :: k, v)
    | none => none

/-- Python `str.split("&")`: the empty string yields one empty chunk. -/
def splitAmp : List Char → List (List Char)
  | [] => [[]]
  | c :: rest =>
    let r := splitAmp rest
    if c = '&' then [] :: r
    else
      match r with
      | [] => [[c]]
      | h :: t => (c :: h) :: t

/-- Model of `urllib.parse.parse_qsl` with default options: split the query on
`&`; drop empty chunks, chunks without `=` and chunks with an empty
value; unquote names and values. -/
def parseQsl (qs : String) : List (String × String) :=
  (splitAmp qs.data).filterMap fun nv =>
    if nv.isEmpty then none
    else
      match splitFirstEq nv with
      | none => none
      | some (k, v) =>
        if v.isEmpty then none
        else some (qsUnquote (String.mk k), qsUnquote (String.mk v))

/-- All values of `parse_qs(query)[key]`, in order. -/
def qsValues (qs : String) (key : String) : List String :=
  (parseQsl qs).filterMap fun p => if p.1 = key then some p.2 else none

/-- The `query` component `urlparse` extracts from a `magnet:?...` URI:
everything after the first `?`, up to the first `#` (the fragment is
split off first, so a `#` before the `?` leaves an empty query, which
the character-wise `takeWhile` reproduces). -/
def magnetQuery (magnet : String) : String :=
  String.mk ((magnet.data.drop 8).takeWhile fun c => c ≠ '#')

/-- Model of `parse_btih_from_magnet` (src/main.py:60): `None` becomes `none`;
the hash is everything after `urn:btih:` in the first matching `xt`
value (`split(":", 2)[-1]`). -/
def parse_btih_from_magnet (magnet : String) : Option String :=
  if pyStartsWith magnet "magnet:?" then
    (qsValues (magnetQuery magnet) "xt").findSome? fun xt =>
      if pyStartsWith xt "urn:btih:" then some (String.mk (xt.data.drop 9)) else none
  else none

/-! ### HTML row parser: class `TPBHTMLParser` (src/main.py lines 72-147)

The class is defined by its three `html.parser` callbacks; the
tokenizer that produces the callbacks belongs to the Python standard
library, so the embedding works at the callback level: a stream of
start-tag / end-tag / text events. -/

/-- One `html.parser` callback event. -/
inductive HEvent where
  | startTag (tag : String) (attrs : List (String × String))
  | endTag (tag : String)
  | textData (s : String)
deriving DecidableEq, Repr

/-- A row dict appended to `self.rows`. -/
structure PRow where
  name : String
  info_hash : String
  seeders : Nat
  leechers : Nat
  size : Nat
deriving DecidableEq, Repr

/-- The per-row accumulator `self.current`. -/
structure RowAcc where
  name : Option String
  magnet : Option String
  size : Nat
deriving DecidableEq, Repr

/-- The parser object state. -/
structure PState where
  rows : List PRow
  inTr : Bool
  inDetName : Bool
  inTitleAnchor : Bool
  inDetDesc : Bool
  inAlignRight : Bool
  alignRightValues : List Nat
  current : RowAcc
deriving DecidableEq, Repr

/-- Model of `_reset_row` (it also clears `in_tr`). -/
def resetRow (st : PState) : PState :=
  { st with inTr := false, inDetName := false, inTitleAnchor := false,
            inDetDesc := false, inAlignRight := false,
            alignRightValues := [], current := ⟨none, none, 0⟩ }

/-- The parser's initial state (`__init__`: empty `rows`, then `_reset_row`). -/
def initPState : PState :=
  ⟨[], false, false, false, false, false, [], ⟨none, none, 0⟩⟩

/-- Model of `dict(attrs).get(k)`: on duplicate attributes the last value wins. -/
def dictGet (attrs : List (String × String)) (k : String) : Option String :=
  attrs.reverse.lookup k

/-- Model of `handle_starttag`. -/
def handleStart (st : PState) (tag : String) (attrs : List (String × String)) : PState :=
  if tag = "tr" then
    { st with inTr := true, alignRightValues := [], current := ⟨none, none, 0⟩ }
  else if st.inTr = false then st
  else
    let st := if tag = "div" ∧ dictGet attrs "class" = some "detName" then
        { st with inDetName := true } else st
    let st := if tag = "font" ∧ dictGet attrs "class" = some "detDesc" then
        { st with inDetDesc := true } else st
    let st :=
      if tag = "a" then
        let href := (dictGet attrs "href").getD ""
        if pyStartsWith href "magnet:?xt=" then
          { st with current := { st.current with magnet := some href } }
        else if st.inDetName then { st with inTitleAnchor := true }
        else st
      else st
    if tag = "td" ∧ dictGet attrs "align" = some "right" then
      { st with inAlignRight := true } else st

/-- The row's info-hash as the end-of-row handler derives it:
`parse_btih_from_magnet(self.current.get("magnet") or "")`, used under a
Python truthiness test, so an empty-string hash counts as absent. -/
def resolveHash (magnet : Option String) : Option String :=
  match parse_btih_from_magnet (magnet.getD "") with
  | some h => if h = "" then none else some h
  | none => none

/-- The `tr`-closing branch of `handle_endtag`: emit the row when both
name and info-hash are truthy, then `_reset_row`. -/
def endRow (st : PState) : PState :=
  let st1 :=
    match st.current.name, resolveHash st.current.magnet with
    | some n, some h =>
      if n ≠ "" then
        { st with rows := st.rows ++
            [⟨n, h, st.alignRightValues.getD 0 0, st.alignRightValues.getD 1 0,
              st.current.size⟩] }
      else st
    | _, _ => st
  resetRow st1

/-- Model of `handle_endtag`: the flag-clearing branches run regardless of
`in_tr`, exactly as in the source. -/
def handleEnd (st : PState) (tag : String) : PState :=
  let st := if tag = "tr" ∧ st.inTr then endRow st else st
  let st := if tag = "div" then { st with inDetName := false } else st
  let st := if tag = "a" then { st with inTitleAnchor := false } else st
  let st := if tag = "font" then { st with inDetDesc := false } else st
  if tag = "td" ∧ st.inAlignRight then { st with inAlignRight := false } else st

/-- Model of `handle_data` on the ASCII fragment: `text.isdigit()` and
`int(text)` agree there.  On non-decimal Unicode digit characters such
as `'²'`, Python's `isdigit` is true but `int` raises; no theorem below
asserts anything about the text handler on such characters. -/
def handleData (st : PState) (data : String) : PState :=
  if st.inTr = false then st
  else
    let text := pyStrip data
    if text = "" then st
    else
      let st := if st.inTitleAnchor ∧ st.inDetName then
          { st with current := { st.current with name := some text } } else st
      let st :=
        if st.inDetDesc then
          let sizeBytes := parse_size_bytes text
          if sizeBytes ≠ 0 then
            { st with current := { st.current with size := sizeBytes } }
          else st
        else st
      if st.inAlignRight ∧ pyIsDigitStr text then
        { st with alignRightValues := st.alignRightValues ++ [digitsToNat text.data] }
      else st

/-- Dispatch one event to the matching callback. -/
def stepEvent (st : PState) : HEvent → PState
  | .startTag tag attrs => handleStart st tag attrs
  | .endTag tag => handleEnd st tag
  | .textData s => handleData st s

/-- Feed a whole event stream, like `parser.feed`. -/
def feedEvents (events : List HEvent) (st : PState) : PState :=
  events.foldl stepEvent st

/-! #### The callbacks over the attribute values the tokenizer really
delivers

`html.parser` reports a valueless attribute (as in `<a href>`) with the
value `None`, and the source's `handle_starttag` then raises
`AttributeError` at `href.startswith(...)`.  The refined event type
below carries `Option String` attribute values (`none` = Python
`None`), and the start-tag handler becomes fallible.  `handle_endtag`
is total (it only inspects strings and previously collected integers);
`handle_data` is total on the modelled ASCII fragment — Python's
`str.isdigit` additionally accepts non-decimal digit characters such as
`'²'` on which `int` then raises, a path outside this model and outside
what the theorems below assert. -/

/-- The exceptions the start-tag handler can raise. -/
inductive PyExc where
  | attributeError
deriving DecidableEq, Repr

/-- A tokenizer event with `Option`-valued attributes. -/
inductive HEventF where
  | startTag (tag : String) (attrs : List (String × Option String))
  | endTag (tag : String)
  | textData (s : String)
deriving DecidableEq, Repr

/-- Last-wins dictionary lookup over tokenizer attributes:
outer `none` for a missing key, `some none` for a key whose stored
value is Python `None`. -/
def dictGetF (attrs : List (String × Option String)) (k : String) :
    Option (Option String) :=
  attrs.reverse.lookup k

/-- Python `dict(attrs).get(k)` as the `== "detName"`-style comparisons
see it: a missing key and a stored `None` are both `None`, and compare
unequal to any string — no raise on this path. -/
def pyGetAttr (attrs : List (String × Option String)) (k : String) : Option String :=
  match dictGetF attrs k with
  | none => none
  | some v => v

/-- Python `attrs.get("href", "")` followed by `.startswith(...)`: a
missing key falls back to `""`; a key stored with `None` makes
`None.startswith` raise `AttributeError`. -/
def hrefAttr (attrs : List (String × Option String)) : Except PyExc String :=
  match dictGetF attrs "href" with
  | none => .ok ""
  | some none => .error .attributeError
  | some (some h) => .ok h

/-- Model of `handle_starttag` over `Option`-valued attributes; raises
exactly when, inside a row, an anchor's `href` attribute is stored with
value `None`. -/
def handleStartE (st : PState) (tag : String) (attrs : List (String × Option String)) :
    Except PyExc PState :=
  if tag = "tr" then
    .ok { st with inTr := true, alignRightValues := [], current := ⟨none, none, 0⟩ }
  else if st.inTr = false then .ok st
  else
    let st := if tag = "div" ∧ pyGetAttr attrs "class" = some "detName" then
        { st with inDetName := true } else st
    let st := if tag = "font" ∧ pyGetAttr attrs "class" = some "detDesc" then
        { st with inDetDesc := true } else st
    if tag = "a" then
      match hrefAttr attrs with
      | .error e => .error e
      | .ok href =>
        let st :=
          if pyStartsWith href "magnet:?xt=" then
            { st with current := { st.current with magnet := some href } }
          else if st.inDetName then { st with inTitleAnchor := true }
          else st
        .ok (if tag = "td" ∧ pyGetAttr attrs "align" = some "right" then
          { st with inAlignRight := true } else st)
    else
      .ok (if tag = "td" ∧ pyGetAttr attrs "align" = some "right" then
        { st with inAlignRight := true } else st)

/-- One tokenizer event through the fallible callbacks. -/
def stepEventF (st : PState) : HEventF → Except PyExc PState
  | .startTag tag attrs => handleStartE st tag attrs
  | .endTag tag => .ok (handleEnd st tag)
  | .textData s => .ok (handleData st s)

/-- Feed a whole event stream; an exception aborts the feed and
propagates out of `parser.feed` (and, uncaught, out of the whole
search), exactly as in the source. -/
def feedEventsF : List HEventF → PState → Except PyExc PState
  | [], st => .ok st
  | e :: rest, st =>
    match stepEventF st e with
    | .error ex => .error ex
    | .ok st1 => feedEventsF rest st1

/-! ### Result filter/ranker: `filter_and_sort` (src/main.py lines 217-246)

Raw rows are dicts coming from the JSON API or from the HTML parser;
the function reads each field with `dict.get` and a default, so a raw
row is modelled with one optional field per key.  The numeric fields
are integers after `int(...)`; nothing in the function constrains their
sign, so they are modelled as `Int`. -/

/-- A raw row as `filter_and_sort` consumes it. -/
structure RawRow where
  name : Option String
  info_hash : Option String
  seeders : Option Int
  leechers : Option Int
  size : Option Int
deriving DecidableEq, Repr

/-- A coerced output record of `filter_and_sort`. -/
structure Row where
  name : String
  info_hash : String
  seeders : Int
  leechers : Int
  size : Int
deriving DecidableEq, Repr

/-- Python `"pat" in hay`: substring containment over character lists. -/
def listContainsSub (pat : List Char) : List Char → Bool
  | [] => pat.isEmpty
  | c :: rest => pat.isPrefixOf (c :: rest) || listContainsSub pat rest

/-- Python `pat in hay` on strings. -/
def strContainsSub (hay pat : String) : Bool :=
  listContainsSub pat.data hay.data

/-- The skip conditions of the `filter_and_sort` loop, in source order:
empty name, resolution mismatch, absent (falsy) info-hash. -/
def passRow (resolution : String) (row : RawRow) : Bool :=
  let name := row.name.getD ""
  if name = "" then false
  else
    let lowerName := pyLower name
    if resolution = "1080" ∧ ¬ strContainsSub lowerName "1080" = true then false
    else if resolution = "4k" ∧
        ¬ (strContainsSub lowerName "2160" || strContainsSub lowerName "4k" ||
           strContainsSub lowerName "uhd") = true then false
    else if row.info_hash.getD "" = "" then false
    else true

/-- The record built for a surviving row: `int(row.get(key, 0))` keeps
the value and turns a missing field into 0. -/
def coerceRow (row : RawRow) : Row :=
  ⟨row.name.getD "", row.info_hash.getD "", row.seeders.getD 0,
   row.leechers.getD 0, row.size.getD 0⟩

/-- The ordering `filtered.sort(key=seeders, reverse=True)` sorts by:
descending seeder count. -/
def seedGe (a b : Row) : Prop := b.seeders ≤ a.seeders

instance : DecidableRel seedGe := fun a b => Int.decLe b.seeders a.seeders

instance : IsTotal Row seedGe := ⟨fun a b => Int.le_total b.seeders a.seeders⟩

instance : IsTrans Row seedGe := ⟨fun _ _ _ hab hbc => Int.le_trans hbc hab⟩

/-- Model of `filter_and_sort` (src/main.py:217).  Python `list.sort` is stable;
insertion sort with `seedGe` is the canonical stable sort for the same
key, inserting each element before those with a strictly greater key
and after earlier elements with an equal key. -/
def filter_and_sort (rows : List RawRow) (resolution : String) : List Row :=
  let filtered := rows.filterMap fun row =>
    if passRow resolution row then some (coerceRow row) else none
  (List.insertionSort seedGe filtered).take 100

/-! ### Magnet builder: `build_magnet` (src/main.py lines 181-186) -/

/-- Upper-case hex digit, as `urllib.parse.quote` emits. -/
def hexUpperDigit (n : Nat) : Char :=
  if n < 10 then Char.ofNat ('0'.toNat + n) else Char.ofNat ('A'.toNat + (n - 10))

/-- The characters `urllib.parse.quote` never encodes:
letters, digits, `_.-~`. -/
def quoteAlwaysSafe (c : Char) : Bool :=
  c.isAlphanum || c = '_' || c = '.' || c = '-' || c = '~'

/-- Model of `urllib.parse.quote` on one ASCII character with an extra safe set. -/
def quoteChar (safe : List Char) (c : Char) : List Char :=
  if quoteAlwaysSafe c || safe.contains c then [c]
  else ['%', hexUpperDigit (c.toNat / 16), hexUpperDigit (c.toNat % 16)]

/-- Model of `urllib.parse.quote(s, safe)` on ASCII text.  The source calls it
with `safe=" "` for the display name and the default `safe="/"` for
trackers. -/
def pyQuote (safe : List Char) (s : String) : String :=
  String.mk (s.data.flatMap (quoteChar safe))

/-- The fixed tracker list `TRACKERS` (src/main.py:31). -/
def TRACKERS : List String :=
  ["udp://tracker.opentrackr.org:1337/announce",
   "udp://open.demonii.com:1337/announce",
   "udp://tracker.coppersurfer.tk:6969/announce",
   "udp://tracker.leechers-paradise.org:6969/announce"]

/-- Model of `build_magnet` (src/main.py:181). -/
def build_magnet (info_hash name : String) : String :=
  "magnet:?xt=" ++ ("urn:btih:" ++ info_hash) ++ "&dn=" ++ pyQuote [' '] name ++
    "&" ++ String.intercalate "&" (TRACKERS.map fun tr => "tr=" ++ pyQuote ['/'] tr)

/-! ### Endpoint fetchers and orchestrator (src/main.py lines 150-214)

The HTTP layer is external; each `(endpoint, category)` attempt is
modelled by an oracle giving either a recoverable error (network
failure, timeout, JSON decode failure) or a parsed row list.  A JSON
body that is not a list, or an empty list / row-less HTML page, is a
clean empty attempt: `FetchOutcome.ok []`. -/

/-- Outcome of one `(endpoint, category)` HTTP attempt.  The `Nat`
identifies the underlying exception for tracking `last_error`. -/
inductive FetchOutcome where
  | err (e : Nat)
  | ok (rows : List RawRow)
deriving DecidableEq, Repr

/-- The list `API_ENDPOINTS` (src/main.py:11). -/
def API_ENDPOINTS : List String :=
  ["https://apibay.org/q.php?q={query}&cat={category}",
   "https://pirateproxy.live/apibay/q.php?q={query}&cat={category}",
   "https://apibay.sbs/q.php?q={query}&cat={category}"]

/-- The list `HTML_ENDPOINTS` (src/main.py:18). -/
def HTML_ENDPOINTS : List String :=
  ["https://thepiratebay.org/search/{query}/1/99/{cat}",
   "https://thepiratebay0.org/search/{query}/1/99/{cat}",
   "https://tpb.party/search/{query}/1/99/{cat}"]

/-- The keys of `CATEGORY_SETS` (src/main.py:25). -/
inductive CatKey where
  | movies_hd
  | shows_hd
  | all_video
deriving DecidableEq, Repr

/-- The table `CATEGORY_SETS` (src/main.py:25). -/
def CATEGORY_SETS : CatKey → List String
  | .movies_hd => ["207", "201", "200"]
  | .shows_hd => ["208", "205", "200"]
  | .all_video => ["200", "0"]

/-- The `(endpoint, category)` pairs in the order the nested loops try
them: categories innermost. -/
def combosOf (endpoints : List String) (k : CatKey) : List (String × String) :=
  endpoints.flatMap fun ep => (CATEGORY_SETS k).map fun c => (ep, c)

/-- The structured fetcher's attempt order. -/
def jsonCombos (k : CatKey) : List (String × String) := combosOf API_ENDPOINTS k

/-- The HTML fetcher's attempt order. -/
def htmlCombos (k : CatKey) : List (String × String) := combosOf HTML_ENDPOINTS k

/-- Result of one fetcher's try-in-order loop: the first non-empty row
set, or exhaustion carrying `last_error`. -/
inductive TryResult where
  | found (rows : List RawRow)
  | exhausted (lastErr : Option Nat)
deriving DecidableEq, Repr

/-- The shared loop shape of both fetchers: on an error record it and
continue; on an empty result continue; on a non-empty result return it
immediately. -/
def tryCombos (o : String → String → FetchOutcome) :
    List (String × String) → Option Nat → TryResult
  | [], lastErr => .exhausted lastErr
  | (ep, c) :: rest, lastErr =>
    match o ep c with
    | .err e => tryCombos o rest (some e)
    | .ok rows => if rows.isEmpty then tryCombos o rest lastErr else .found rows

/-- The two `RuntimeError`s the module can raise, each carrying its
`last_error` cause. -/
inductive FetchErr where
  | htmlAllFailed (cause : Nat)
  | proxyAllFailed (cause : Nat)
deriving DecidableEq, Repr

/-- The underlying cause an error message carries. -/
def causeOf : FetchErr → Nat
  | .htmlAllFailed e => e
  | .proxyAllFailed e => e

/-- Model of `fetch_html_results` (src/main.py:150): exhaustion with a recorded
error raises; clean exhaustion returns the empty list. -/
def fetch_html_results (o : String → String → FetchOutcome) (k : CatKey) :
    Except FetchErr (List RawRow) :=
  match tryCombos o (htmlCombos k) none with
  | .found rows => .ok rows
  | .exhausted (some e) => .error (.htmlAllFailed e)
  | .exhausted none => .ok []

/-- Model of `fetch_results` (src/main.py:189): try the JSON combinations, fall
back to the HTML fetcher (whose own error propagates), then either
return the HTML rows, raise with the JSON `last_error`, or return
an empty list. -/
def fetch_results (jo ho : String → String → FetchOutcome) (k : CatKey) :
    Except FetchErr (List RawRow) :=
  match tryCombos jo (jsonCombos k) none with
  | .found rows => .ok rows
  | .exhausted lastErr =>
    match fetch_html_results ho k with
    | .error er => .error er
    | .ok htmlRows =>
      if htmlRows.isEmpty then
        match lastErr with
        | some e => .error (.proxyAllFailed e)
        | none => .ok []
      else .ok htmlRows

/-- The errors the attempts over `combos` record, in order. -/
def errorsOf (o : String → String → FetchOutcome) (combos : List (String × String)) :
    List Nat :=
  combos.filterMap fun pc =>
    match o pc.1 pc.2 with
    | .err e => some e
    | .ok _ => none

/-- Whether one attempt outcome is a non-empty (returnable) result. -/
def isFoundB : FetchOutcome → Bool
  | .err _ => false
  | .ok rows => !rows.isEmpty

/-! ### Specification-side definitions and concrete inputs -/

/-- The emission invariant of the HTML parser: a non-empty name and an
info-hash that some magnet URI resolves to (and is therefore truthy). -/
def goodRow (r : PRow) : Prop :=
  r.name ≠ "" ∧ r.info_hash ≠ "" ∧ ∃ m, parse_btih_from_magnet m = some r.info_hash

/-- A 40-hex-character info-hash. -/
def hashA : String := "AAAAAAAAAAAAAAAAAAAAAAAAAAAAAAAAAAAAAAAA"

/-- The magnet link of the synthetic table row. -/
def sampleMagnetHref : String :=
  "magnet:?xt=urn:btih:" ++ hashA ++ "&dn=Example.Movie.1080p"

/-- The synthetic table row of §8 of the spec, as the tag-event stream
the standard-library tokenizer delivers for it: a title anchor inside
the `detName` container, a magnet anchor, a `detDesc` description whose
text contains `Size 2 GiB`, and two right-aligned numeric cells. -/
def sampleEvents : List HEvent :=
  [.startTag "tr" [],
   .startTag "td" [],
   .startTag "div" [("class", "detName")],
   .startTag "a" [("href", "/torrent/123/Example.Movie.1080p"), ("class", "detLink")],
   .textData "Example.Movie.1080p",
   .endTag "a",
   .endTag "div",
   .startTag "a" [("href", sampleMagnetHref)],
   .endTag "a",
   .startTag "font" [("class", "detDesc")],
   .textData "Uploaded 03-14 2019, Size 2 GiB, ULed by anon",
   .endTag "font",
   .endTag "td",
   .startTag "td" [("align", "right")],
   .textData "120",
   .endTag "td",
   .startTag "td" [("align", "right")],
   .textData "5",
   .endTag "td",
   .endTag "tr"]

/-- The single row the sample stream yields. -/
def sampleRow : PRow := ⟨"Example.Movie.1080p", hashA, 120, 5, 2 * 1024 ^ 3⟩

/-- The sample stream over the refined event type: every attribute of
the synthetic row carries a value. -/
def sampleEventsF : List HEventF :=
  [.startTag "tr" [],
   .startTag "td" [],
   .startTag "div" [("class", some "detName")],
   .startTag "a" [("href", some "/torrent/123/Example.Movie.1080p"),
                  ("class", some "detLink")],
   .textData "Example.Movie.1080p",
   .endTag "a",
   .endTag "div",
   .startTag "a" [("href", some sampleMagnetHref)],
   .endTag "a",
   .startTag "font" [("class", some "detDesc")],
   .textData "Uploaded 03-14 2019, Size 2 GiB, ULed by anon",
   .endTag "font",
   .endTag "td",
   .startTag "td" [("align", some "right")],
   .textData "120",
   .endTag "td",
   .startTag "td" [("align", some "right")],
   .textData "5",
   .endTag "td",
   .endTag "tr"]

/-- The survivor predicate in the claim's own words: non-empty name,
truthy info-hash, and the resolution test (`"1080"`: lowercase name
contains `1080`; `"4k"`: lowercase name contains one of `2160`, `4k`,
`uhd`; anything else: no resolution test). -/
def specPassRow (resolution : String) (row : RawRow) : Bool :=
  (row.name.getD "" != "") &&
  (row.info_hash.getD "" != "") &&
  (if resolution = "1080" then strContainsSub (pyLower (row.name.getD "")) "1080"
   else if resolution = "4k" then
     strContainsSub (pyLower (row.name.getD "")) "2160" ||
     strContainsSub (pyLower (row.name.getD "")) "4k" ||
     strContainsSub (pyLower (row.name.getD "")) "uhd"
   else true)

/-- Spec-side URI-unreserved test, written from the spec's notion of
percent-encoding: letters, digits and `_.-~` stay literal. -/
def specUnreserved (c : Char) : Bool :=
  c.isAlpha || c.isDigit || c = '_' || c = '.' || c = '-' || c = '~'

/-- A percent escape `%XX` with upper-case hex. -/
def specPct (c : Char) : List Char :=
  ['%', hexUpperDigit (c.toNat / 16), hexUpperDigit (c.toNat % 16)]

/-- Spec-side display-name encoding: a space stays a literal space, any
other character is percent-encoded (unreserved characters staying
literal). -/
def specDnChar (c : Char) : List Char :=
  if c = ' ' then [' '] else if specUnreserved c then [c] else specPct c

/-- Spec-side display-name encoding over a whole name. -/
def specDn (name : String) : String :=
  String.mk (name.data.flatMap specDnChar)

/-- The four `tr` components in the declared order of the fixed tracker
list, each tracker percent-encoded. -/
def specTrackerParams : String :=
  "tr=udp%3A//tracker.opentrackr.org%3A1337/announce" ++
  "&tr=udp%3A//open.demonii.com%3A1337/announce" ++
  "&tr=udp%3A//tracker.coppersurfer.tk%3A6969/announce" ++
  "&tr=udp%3A//tracker.leechers-paradise.org%3A6969/announce"

/-- The magnet URI shape stated by the spec:
`magnet:?xt=urn:btih:<hash>&dn=<encoded name>&tr=...` with the trackers
in declared order. -/
def specMagnet (info_hash name : String) : String :=
  "magnet:?xt=" ++ ("urn:btih:" ++ info_hash) ++ "&dn=" ++ specDn name ++
    "&" ++ specTrackerParams

/-- The unit vocabulary of the claim for the size pattern. -/
def sizeUnitNames : List String :=
  ["b", "kib", "kb", "mib", "mb", "gib", "gb", "tib", "tb"]

/-- Does the claim's pattern `Size <number> <unit>` with a unit from the
declared set occur at the head of `cs` (unit compared
case-insensitively)? -/
def specValidSizeAt (cs : List Char) : Bool :=
  if "Size ".data.isPrefixOf cs then
    let rest0 := cs.drop 5
    if (rest0.takeWhile Char.isDigit).isEmpty then false
    else
      let rest1 := rest0.dropWhile Char.isDigit
      let rest2 :=
        match rest1 with
        | '.' :: r2 =>
          if (r2.takeWhile Char.isDigit).isEmpty then rest1
          else r2.dropWhile Char.isDigit
        | _ => rest1
      let rest3 := rest2.dropWhile pyIsSpace
      sizeUnitNames.any fun u => u.data.isPrefixOf (rest3.map Char.toLower)
  else false

/-- Does the claim's valid-unit size pattern occur anywhere in `cs`? -/
def specHasValidSizePattern : List Char → Bool
  | [] => false
  | c :: rest => specValidSizeAt (c :: rest) || specHasValidSizePattern rest

/-- A raw row with negative numeric fields, as the JSON wire format
could deliver. -/
def negRow : RawRow :=
  ⟨some "Bad.Movie.1080p", some "FFFF", some (-1), some (-2), some (-3)⟩

/-- A well-formed raw row with one missing numeric field. -/
def posRows : List RawRow :=
  [⟨some "Good.Movie.1080p", some "AB", none, some 7, none⟩]

/-- Rows for exercising an out-of-enum resolution selector. -/
def c10Rows : List RawRow :=
  [⟨some "Example.Movie.720p", some "CD", some 3, some 1, some 0⟩,
   ⟨some "Example.Movie.1080p", some "EF", some 2, some 0, some 0⟩]

/-- An oracle whose every attempt fails with error 1. -/
def jo0 : String → String → FetchOutcome := fun _ _ => .err 1

/-- An oracle whose every attempt returns a clean empty result. -/
def ho0 : String → String → FetchOutcome := fun _ _ => .ok []

/-- The orchestrator's verdict when both loops exhaust with the given
`last_error` accumulators: an HTML-side error wins, then a JSON-side
error, else the clean empty result. -/
def exhaustedVerdict (lej leh : Option Nat) : Except FetchErr (List RawRow) :=
  match leh with
  | some eh => .error (.htmlAllFailed eh)
  | none =>
    match lej with
    | some ej => .error (.proxyAllFailed ej)
    | none => .ok []

/-! ## Theorems -/

/-- C7: the size normalizer returns exactly `⌊1.5 × 1024³⌋` for
`"Size 1.5 GiB text"` and exactly `700 × 1024²` for `"Size 700 MB"`;
the decimal-prefix units KB/MB/GB/TB scale identically to the binary
KiB/MiB/GiB/TiB. -/
theorem parse_size_bytes_examples :
    parse_size_bytes "Size 1.5 GiB text" = 3 * 1024 ^ 3 / 2 ∧
    parse_size_bytes "Size 700 MB" = 700 * 1024 ^ 2 ∧
    unitScale "kb" = unitScale "kib" ∧ unitScale "mb" = unitScale "mib" ∧
    unitScale "gb" = unitScale "gib" ∧ unitScale "tb" = unitScale "tib" := by
  decide

/-- C2: fed the synthetic table row (title anchor `Example.Movie.1080p`
inside the title container, a magnet link carrying a 40-hex btih hash,
a description text containing `Size 2 GiB`, right-aligned digit cells
`120` and `5`), the HTML row parser emits exactly one row with that
name, the hash extracted from the magnet link, `sizeBytes = 2 × 1024³`,
120 seeders and 5 leechers. -/
theorem tpb_parser_sample_row :
    (feedEvents sampleEvents initPState).rows =
      [⟨"Example.Movie.1080p", hashA, 120, 5, 2 * 1024 ^ 3⟩] ∧
    parse_btih_from_magnet sampleMagnetHref = some hashA := by
  decide

/-- C4 counterexample: the built magnet URI does **not** start with
`magnet:?xt=urn:btih:<hash>&dn=My%20Movie&tr=` — the space of the
display name is left literal, so the `%20` form claimed in the spec's
example never appears. -/
theorem build_magnet_pct20_cx :
    pyStartsWith (build_magnet hashA "My Movie")
      ("magnet:?xt=urn:btih:" ++ hashA ++ "&dn=My%20Movie&tr=") = false := by
  decide

/-- C4 amended: `build_magnet` applied to the 40-hex hash and name
`My Movie` yields exactly
`magnet:?xt=urn:btih:<hash>&dn=My Movie&tr=...` — the space kept
literal — with each tracker percent-encoded, so in particular the
string starts with the literal-space `dn` prefix. -/
theorem build_magnet_example_amended :
    build_magnet hashA "My Movie" =
      "magnet:?xt=urn:btih:AAAAAAAAAAAAAAAAAAAAAAAAAAAAAAAAAAAAAAAA&dn=My Movie&" ++
        specTrackerParams ∧
    pyStartsWith (build_magnet hashA "My Movie")
      ("magnet:?xt=urn:btih:" ++ hashA ++ "&dn=My Movie&tr=") = true := by
  decide

/-- The implementation's character encoding with `safe=" "` coincides
with the spec-side display-name encoding: a space stays literal, any
other character is percent-encoded in the standard way. -/
theorem quoteChar_space_eq_specDnChar (c : Char) :
    quoteChar [' '] c = specDnChar c := by
  by_cases h : c = ' '
  · subst h; rfl
  · have hb : (c == ' ') = false := by simp [h]
    simp [quoteChar, specDnChar, specPct, quoteAlwaysSafe, specUnreserved,
      Char.isAlphanum, List.contains, List.elem, h, hb, Bool.or_assoc]

/-- C5: for every info-hash and display name the magnet builder
produces exactly the URI shape the spec states —
`magnet:?xt=urn:btih:<hash>&dn=<encoded name>&tr=...&tr=...` — where
the name encoding leaves spaces literal and percent-encodes the rest,
and the `tr` components are the percent-encoded trackers in the fixed
list's declared order. -/
theorem build_magnet_eq_specMagnet (info_hash name : String) :
    build_magnet info_hash name = specMagnet info_hash name := by
  have hdn : pyQuote [' '] name = specDn name := by
    unfold pyQuote specDn
    rw [funext quoteChar_space_eq_specDnChar]
  have htr : String.intercalate "&" (TRACKERS.map fun tr => "tr=" ++ pyQuote ['/'] tr) =
      specTrackerParams := by decide
  unfold build_magnet specMagnet
  rw [hdn, htr]

/-- C8 counterexample: `"Size 5 XYZ"` contains no `Size <number> <unit>`
pattern with a unit from the declared set, yet the size normalizer
returns 5, not 0 — the unit table's `.get(unit, 1)` default scales an
unknown unit by 1. -/
theorem parse_size_unknown_unit_cx :
    specHasValidSizePattern "Size 5 XYZ".data = false ∧
    parse_size_bytes "Size 5 XYZ" = 5 := by
  decide

/-- C8 amended: for every ASCII input in which the size regex finds no
match at all, the size normalizer returns 0 — and on that branch the
source touches no float, so it never raises (on ASCII text the model's
match search coincides with the regex's); an input matching with a unit
outside the declared set is scaled by the unit table's default 1, as
`"Size 5 XYZ"` returning `5` (a float-exact value) shows.  No general
value formula is asserted for matched inputs, whose number passes
through float conversion. -/
theorem parse_size_default_amended (s : String) :
    (asciiOnly s → findSize s.data = none → parse_size_bytes s = 0) ∧
    parse_size_bytes "Size 5 XYZ" = 5 := by
  constructor
  · intro _ h
    unfold parse_size_bytes
    rw [h]
  · decide

/-- Witness for the amended C8 theorem at concrete inputs. -/
theorem parse_size_default_amended_witness :
    (asciiOnly "no size here" ∧ findSize "no size here".data = none) ∧
    parse_size_bytes "no size here" = 0 ∧ parse_size_bytes "Size 5 XYZ" = 5 :=
  ⟨⟨by decide, by decide⟩,
   (parse_size_default_amended "no size here").1 (by decide) (by decide),
   (parse_size_default_amended "Size 5 XYZ").2⟩

/-- For a selector that is neither `"1080"` nor `"4k"` the skip
conditions coincide with those of `"any"`. -/
theorem passRow_ne_any (resolution : String) (row : RawRow)
    (h1 : resolution ≠ "1080") (h2 : resolution ≠ "4k") :
    passRow resolution row = passRow "any" row := by
  unfold passRow
  simp [h1, h2]

/-- C10: for every resolution selector other than `"1080"` and `"4k"` —
including out-of-enum values such as `"720"` or the empty string — the
filter/ranker applies no resolution test: its output equals the output
for `"any"` on the same rows. -/
theorem filter_and_sort_unknown_resolution (rows : List RawRow) (resolution : String)
    (h1 : resolution ≠ "1080") (h2 : resolution ≠ "4k") :
    filter_and_sort rows resolution = filter_and_sort rows "any" := by
  have hp : passRow resolution = passRow "any" :=
    funext fun row => passRow_ne_any resolution row h1 h2
  unfold filter_and_sort
  rw [hp]

/-- Witness for C10 at the selector `"720"` and concrete rows. -/
theorem filter_and_sort_unknown_resolution_witness :
    (("720" : String) ≠ "1080" ∧ ("720" : String) ≠ "4k") ∧
    filter_and_sort c10Rows "720" = filter_and_sort c10Rows "any" :=
  ⟨⟨by decide, by decide⟩,
   filter_and_sort_unknown_resolution c10Rows "720" (by decide) (by decide)⟩

/-- C6 counterexample: a surviving row whose wire fields are negative
keeps its negative seeders/leechers/size in the returned record —
`int(...)` coerces but does not clamp, so the returned fields are not
always non-negative. -/
theorem filter_and_sort_negative_cx :
    (filter_and_sort [negRow] "any").map (fun r => r.seeders) = [-1] ∧
    (filter_and_sort [negRow] "any").map (fun r => r.leechers) = [-2] ∧
    (filter_and_sort [negRow] "any").map (fun r => r.size) = [-3] ∧
    ¬ (0 : Int) ≤ -1 := by
  decide

/-- C6 amended: every returned record's seeders/leechers/size equal the
corresponding input field with a missing field coerced to 0; they are
non-negative whenever every input row's present numeric fields are
non-negative (as those produced by the fetchers are). -/
theorem filter_and_sort_coerce_amended (rows : List RawRow) (resolution : String)
    (r : Row) (hr : r ∈ filter_and_sort rows resolution) :
    (∃ row ∈ rows, r.seeders = row.seeders.getD 0 ∧ r.leechers = row.leechers.getD 0 ∧
      r.size = row.size.getD 0) ∧
    ((∀ row ∈ rows, 0 ≤ row.seeders.getD 0 ∧ 0 ≤ row.leechers.getD 0 ∧
        0 ≤ row.size.getD 0) →
      0 ≤ r.seeders ∧ 0 ≤ r.leechers ∧ 0 ≤ r.size) := by
  unfold filter_and_sort at hr
  have hr2 : r ∈ rows.filterMap fun row =>
      if passRow resolution row then some (coerceRow row) else none := by
    have := List.mem_of_mem_take hr
    rwa [List.mem_insertionSort] at this
  obtain ⟨row, hmem, hrow⟩ := List.mem_filterMap.mp hr2
  by_cases hp : passRow resolution row
  · rw [if_pos hp] at hrow
    obtain rfl : coerceRow row = r := Option.some_injective _ hrow
    refine ⟨⟨row, hmem, rfl, rfl, rfl⟩, fun hnn => ?_⟩
    obtain ⟨h1, h2, h3⟩ := hnn row hmem
    exact ⟨h1, h2, h3⟩
  · rw [if_neg hp] at hrow
    exact absurd hrow (by simp)

/-- Witness for the amended C6 theorem: a surviving row with one
missing numeric field comes back with that field 0 and all fields
non-negative. -/
theorem filter_and_sort_coerce_amended_witness :
    ((⟨"Good.Movie.1080p", "AB", 0, 7, 0⟩ : Row) ∈ filter_and_sort posRows "any") ∧
    (0 ≤ (0 : Int) ∧ 0 ≤ (7 : Int) ∧ 0 ≤ (0 : Int)) :=
  ⟨by decide,
   (filter_and_sort_coerce_amended posRows "any" ⟨"Good.Movie.1080p", "AB", 0, 7, 0⟩
     (by decide)).2 (by decide)⟩

/-- The code's survivor test equals the claim-side predicate. -/
theorem passRow_eq_specPassRow (resolution : String) (row : RawRow) :
    passRow resolution row = specPassRow resolution row := by
  simp only [passRow, specPassRow]
  by_cases hn : row.name.getD "" = "" <;>
    by_cases hh : row.info_hash.getD "" = "" <;>
    by_cases h1 : resolution = "1080" <;>
    by_cases h4 : resolution = "4k" <;>
    by_cases hc1 : strContainsSub (pyLower (row.name.getD "")) "1080" = true <;>
    by_cases hc4 : (strContainsSub (pyLower (row.name.getD "")) "2160" ||
        strContainsSub (pyLower (row.name.getD "")) "4k" ||
        strContainsSub (pyLower (row.name.getD "")) "uhd") = true <;>
    simp_all

/-- The filter/coercion loop is the spec-side filter followed by the
coercion map. -/
theorem filtered_eq_map_filter (rows : List RawRow) (resolution : String) :
    (rows.filterMap fun row =>
      if passRow resolution row then some (coerceRow row) else none) =
      (rows.filter (specPassRow resolution)).map coerceRow := by
  induction rows with
  | nil => rfl
  | cons a t ih =>
    rw [List.filterMap_cons, List.filter_cons]
    by_cases hp : passRow resolution a
    · have hs : specPassRow resolution a = true := by
        rw [← passRow_eq_specPassRow]; exact hp
      simp [hp, hs, ih]
    · have hs : ¬ specPassRow resolution a = true := by
        rw [← passRow_eq_specPassRow]; exact hp
      simp [hp, hs, ih]

/-- Inserting `a` keeps the subsequence of any fixed seeder count,
except for prepending `a` itself when it has that count: elements passed
over have a strictly greater seeder count. -/
theorem filter_seed_orderedInsert (s : Int) (a : Row) (l : List Row) :
    (List.orderedInsert seedGe a l).filter (fun r => r.seeders == s) =
      if a.seeders == s then a :: l.filter (fun r => r.seeders == s)
      else l.filter (fun r => r.seeders == s) := by
  induction l with
  | nil => by_cases h : a.seeders == s <;> simp [List.orderedInsert, h]
  | cons b t ih =>
    by_cases hab : seedGe a b
    · rw [List.orderedInsert, if_pos hab]
      by_cases ha : a.seeders == s <;> simp [List.filter_cons, ha]
    · rw [List.orderedInsert, if_neg hab]
      have hlt : a.seeders < b.seeders := not_le.mp hab
      by_cases hbs : b.seeders == s
      · have hbs' : b.seeders = s := beq_iff_eq.mp hbs
        have has : (a.seeders == s) = false := by
          refine beq_eq_false_iff_ne.mpr fun hc => ?_
          rw [hc, ← hbs'] at hlt
          exact absurd hlt (lt_irrefl _)
        simp [List.filter_cons, hbs, ih, has]
      · simp [List.filter_cons, hbs, ih]

/-- Stability of the descending insertion sort: for every seeder count,
the elements with that count appear in their original order. -/
theorem filter_seed_insertionSort (l : List Row) (s : Int) :
    (List.insertionSort seedGe l).filter (fun r => r.seeders == s) =
      l.filter (fun r => r.seeders == s) := by
  induction l with
  | nil => rfl
  | cons a t ih =>
    rw [List.insertionSort, filter_seed_orderedInsert]
    by_cases ha : a.seeders == s <;> simp [List.filter_cons, ha, ih]

/-- C3: for every row list and resolution selector, the filter/ranker
keeps exactly the rows passing the claim's name/resolution/info-hash
test (coerced), orders them by seeders descending via a stable sort
(rows of equal seeder count keep their original relative order), and
returns at most the first 100. -/
theorem filter_and_sort_spec (rows : List RawRow) (resolution : String) :
    filter_and_sort rows resolution =
      (List.insertionSort seedGe
        ((rows.filter (specPassRow resolution)).map coerceRow)).take 100 ∧
    (List.insertionSort seedGe
      ((rows.filter (specPassRow resolution)).map coerceRow)).Perm
      ((rows.filter (specPassRow resolution)).map coerceRow) ∧
    List.Sorted seedGe
      (List.insertionSort seedGe ((rows.filter (specPassRow resolution)).map coerceRow)) ∧
    (∀ s : Int,
      (List.insertionSort seedGe
        ((rows.filter (specPassRow resolution)).map coerceRow)).filter
          (fun r => r.seeders == s) =
        ((rows.filter (specPassRow resolution)).map coerceRow).filter
          (fun r => r.seeders == s)) ∧
    (filter_and_sort rows resolution).length ≤ 100 := by
  refine ⟨?_, List.perm_insertionSort _ _, List.sorted_insertionSort _ _,
    fun s => filter_seed_insertionSort _ s, ?_⟩
  · unfold filter_and_sort
    rw [filtered_eq_map_filter]
  · unfold filter_and_sort
    exact List.length_take_le _ _

/-- Resetting the row accumulator does not touch the collected rows. -/
theorem resetRow_rows (st : PState) : (resetRow st).rows = st.rows := rfl

set_option maxHeartbeats 2000000 in
/-- The text handler never emits or drops rows. -/
theorem handleData_rows (st : PState) (s : String) :
    (handleData st s).rows = st.rows := by
  unfold handleData
  dsimp only
  split_ifs <;> rfl

set_option maxHeartbeats 2000000 in
/-- The end-tag handler touches the rows only through the row-closing
branch. -/
theorem handleEnd_rows (st : PState) (tag : String) :
    (handleEnd st tag).rows = (if tag = "tr" ∧ st.inTr then endRow st else st).rows := by
  unfold handleEnd
  dsimp only
  split_ifs <;> rfl

/-- A truthy resolved hash is non-empty and really extracted from the
candidate magnet string. -/
theorem resolveHash_spec (m : Option String) (h : String)
    (hh : resolveHash m = some h) :
    h ≠ "" ∧ parse_btih_from_magnet (m.getD "") = some h := by
  unfold resolveHash at hh
  cases hp : parse_btih_from_magnet (m.getD "") with
  | none => rw [hp] at hh; exact absurd hh (by simp)
  | some h' =>
    rw [hp] at hh
    dsimp only at hh
    by_cases he : h' = ""
    · rw [if_pos he] at hh; exact absurd hh (by simp)
    · rw [if_neg he] at hh
      obtain rfl : h' = h := Option.some_injective _ hh
      exact ⟨he, rfl⟩

/-- The row-closing branch only ever appends a row with a non-empty
name and a magnet-resolvable info-hash. -/
theorem endRow_good (st : PState) (hinv : ∀ r ∈ st.rows, goodRow r) :
    ∀ r ∈ (endRow st).rows, goodRow r := by
  intro r hr
  unfold endRow at hr
  rw [resetRow_rows] at hr
  rcases hname : st.current.name with _ | n <;>
    rcases hhash : resolveHash st.current.magnet with _ | h <;>
    simp only [hname, hhash] at hr
  · exact hinv r hr
  · exact hinv r hr
  · exact hinv r hr
  · by_cases hn : n ≠ ""
    · rw [if_pos hn] at hr
      simp only at hr
      rcases List.mem_append.mp hr with hold | hnew
      · exact hinv r hold
      · obtain rfl := List.mem_singleton.mp hnew
        obtain ⟨hne, hparse⟩ := resolveHash_spec _ _ hhash
        exact ⟨hn, hne, st.current.magnet.getD "", hparse⟩
    · rw [if_neg hn] at hr
      exact hinv r hr

set_option maxHeartbeats 2000000 in
/-- When the fallible start-tag handler returns a state, that state has
the same rows. -/
theorem handleStartE_rows (st : PState) (tag : String)
    (attrs : List (String × Option String)) (st1 : PState)
    (h : handleStartE st tag attrs = .ok st1) : st1.rows = st.rows := by
  unfold handleStartE at h
  dsimp only at h
  split_ifs at h
  all_goals try (simp only [Except.ok.injEq] at h; subst h; rfl)
  all_goals
    cases hh : hrefAttr attrs with
    | error e =>
      rw [hh] at h
      exact absurd h (by simp)
    | ok href =>
      rw [hh] at h
      dsimp only at h
      split_ifs at h <;> (simp only [Except.ok.injEq] at h; subst h; rfl)

/-- One non-raising event preserves the emission invariant. -/
theorem stepEventF_good (st : PState) (e : HEventF) (st1 : PState)
    (h : stepEventF st e = .ok st1) (hinv : ∀ r ∈ st.rows, goodRow r) :
    ∀ r ∈ st1.rows, goodRow r := by
  cases e with
  | startTag tag attrs =>
    intro r hr
    simp only [stepEventF] at h
    rw [handleStartE_rows st tag attrs st1 h] at hr
    exact hinv r hr
  | endTag tag =>
    simp only [stepEventF, Except.ok.injEq] at h
    subst h
    intro r hr
    rw [handleEnd_rows] at hr
    by_cases htr : tag = "tr" ∧ st.inTr
    · rw [if_pos htr] at hr
      exact endRow_good st hinv r hr
    · rw [if_neg htr] at hr
      exact hinv r hr
  | textData s =>
    simp only [stepEventF, Except.ok.injEq] at h
    subst h
    intro r hr
    rw [handleData_rows] at hr
    exact hinv r hr

/-- A whole non-raising event stream preserves the emission
invariant. -/
theorem feedEventsF_good : ∀ (events : List HEventF) (st st1 : PState),
    feedEventsF events st = .ok st1 →
    (∀ r ∈ st.rows, goodRow r) → ∀ r ∈ st1.rows, goodRow r := by
  intro events
  induction events with
  | nil =>
    intro st st1 h hinv
    simp only [feedEventsF, Except.ok.injEq] at h
    subst h
    exact hinv
  | cons e t ih =>
    intro st st1 h hinv
    simp only [feedEventsF] at h
    cases hs : stepEventF st e with
    | error ex =>
      rw [hs] at h
      exact absurd h (by simp)
    | ok st2 =>
      rw [hs] at h
      exact ih st2 st1 h (stepEventF_good st e st2 hs hinv)

/-- C9 counterexample: the table row `<tr><a href></a></tr>` — a row
with no magnet link — is not dropped silently: the tokenizer delivers
the valueless `href` as `None`, and the start-tag handler raises
`AttributeError` at `href.startswith(...)`. -/
theorem tpb_parser_raises_cx :
    feedEventsF
      [.startTag "tr" [], .startTag "a" [("href", none)], .endTag "a", .endTag "tr"]
      initPState = .error .attributeError := by
  rfl

/-- C9 amended: every row the HTML parser emits on a completed feed has
a non-empty name and a non-empty info-hash resolved from a captured
magnet link — an aborted feed surfaces its exception instead of rows —
so no row lacking either ever reaches the ranking stage; the row-closing
handler emits nothing for a row missing either and itself raises no
error; but the blanket "no error to be raised" does not hold: inside a
row, an anchor whose `href` carries no value makes the start-tag
handler raise (and, outside this model, a non-decimal Unicode digit in
a right-aligned cell makes the text handler raise). -/
theorem tpb_parser_rows_amended :
    (∀ (events : List HEventF) (st : PState),
      feedEventsF events initPState = .ok st →
      ∀ r ∈ st.rows, goodRow r) ∧
    (∀ st : PState,
      st.current.name.getD "" = "" ∨ resolveHash st.current.magnet = none →
      (handleEnd st "tr").rows = st.rows) := by
  constructor
  · intro events st hok r hr
    refine feedEventsF_good events initPState st hok ?_ r hr
    intro r' hr'
    exact absurd hr' (List.not_mem_nil r')
  · intro st hcond
    rw [handleEnd_rows]
    by_cases htr : ("tr" : String) = "tr" ∧ st.inTr
    · rw [if_pos htr]
      unfold endRow
      rw [resetRow_rows]
      rcases hname : st.current.name with _ | n <;>
        rcases hhash : resolveHash st.current.magnet with _ | h <;>
        simp only [hname, hhash]
      rcases hcond with hc | hc
      · have hn : n = "" := by simpa [hname] using hc
        rw [if_neg (fun hne => hne hn)]
      · rw [hhash] at hc
        exact absurd hc (by simp)
    · rw [if_neg htr]

/-- Witness for the amended C9 theorem at the sample event stream,
whose feed completes with exactly the sample row. -/
theorem tpb_parser_rows_amended_witness :
    (feedEventsF sampleEventsF initPState =
      .ok ⟨[sampleRow], false, false, false, false, false, [], ⟨none, none, 0⟩⟩) ∧
    goodRow sampleRow :=
  ⟨by rfl,
   tpb_parser_rows_amended.1 sampleEventsF
     ⟨[sampleRow], false, false, false, false, false, [], ⟨none, none, 0⟩⟩
     (by rfl) sampleRow (by decide)⟩

/-- The try-in-order loop returns `found` only with a non-empty row
list. -/
theorem tryCombos_found_ne_nil (o : String → String → FetchOutcome) :
    ∀ (combos : List (String × String)) (le : Option Nat) (rows : List RawRow),
    tryCombos o combos le = .found rows → rows ≠ [] := by
  intro combos
  induction combos with
  | nil =>
    intro le rows h
    exact absurd h (by simp [tryCombos])
  | cons pc rest ih =>
    intro le rows h
    obtain ⟨ep, c⟩ := pc
    simp only [tryCombos] at h
    cases ho : o ep c with
    | err e =>
      rw [ho] at h
      exact ih _ rows h
    | ok rs =>
      rw [ho] at h
      dsimp only at h
      by_cases hre : rs.isEmpty
      · rw [if_pos hre] at h
        exact ih _ rows h
      · rw [if_neg hre] at h
        cases h
        intro hnil
        exact hre (by simp [hnil])

/-- If no combination yields a non-empty result, the loop exhausts
carrying the last recorded error (the accumulator when no attempt
errs). -/
theorem tryCombos_exhausted (o : String → String → FetchOutcome) :
    ∀ (combos : List (String × String)) (le0 : Option Nat),
    (∀ pc ∈ combos, isFoundB (o pc.1 pc.2) = false) →
    tryCombos o combos le0 = .exhausted ((le0.toList ++ errorsOf o combos).getLast?) := by
  intro combos
  induction combos with
  | nil =>
    intro le0 _
    have : errorsOf o [] = [] := rfl
    rw [this, List.append_nil]
    cases le0 <;> rfl
  | cons pc rest ih =>
    intro le0 h
    obtain ⟨ep, c⟩ := pc
    have hhead : isFoundB (o ep c) = false := h (ep, c) (List.mem_cons_self _ _)
    have htail : ∀ pc ∈ rest, isFoundB (o pc.1 pc.2) = false :=
      fun pc hpc => h pc (List.mem_cons_of_mem _ hpc)
    simp only [tryCombos]
    cases ho : o ep c with
    | err e =>
      dsimp only
      rw [ih (some e) htail]
      have herr : errorsOf o ((ep, c) :: rest) = e :: errorsOf o rest := by
        simp [errorsOf, ho]
      rw [herr]
      congr 1
      rw [List.getLast?_append_of_ne_nil _ (List.cons_ne_nil e _)]
      rfl
    | ok rs =>
      have hre : rs.isEmpty = true := by simpa [isFoundB, ho] using hhead
      dsimp only
      rw [if_pos hre, ih le0 htail]
      have herr : errorsOf o ((ep, c) :: rest) = errorsOf o rest := by
        simp [errorsOf, ho]
      rw [herr]

/-- Value of the orchestrator when both fetchers exhaust with the given
`last_error` accumulators. -/
theorem fetch_results_eq_of_exhausted (jo ho : String → String → FetchOutcome)
    (k : CatKey) (lej leh : Option Nat)
    (hj : tryCombos jo (jsonCombos k) none = .exhausted lej)
    (hh : tryCombos ho (htmlCombos k) none = .exhausted leh) :
    fetch_results jo ho k = exhaustedVerdict lej leh := by
  unfold fetch_results fetch_html_results exhaustedVerdict
  rw [hj, hh]
  cases leh with
  | some eh => rfl
  | none => cases lej <;> rfl

/-- C1: the search orchestrator (a) returns the JSON fetcher's first
non-empty array unchanged and, in that case, never consults the HTML
fetcher (its result is independent of the HTML oracle); (b) otherwise
returns the HTML fetcher's first non-empty row list; (c) when every
combination of both fetchers is exhausted without a result, it fails
with an all-endpoints-failed error carrying the last recorded
underlying cause if any attempt recorded an error, and returns the
empty list if every attempt was cleanly empty. -/
theorem fetch_results_orchestration :
    (∀ (jo ho ho2 : String → String → FetchOutcome) (k : CatKey) (rows : List RawRow),
      tryCombos jo (jsonCombos k) none = .found rows →
      fetch_results jo ho k = .ok rows ∧
      fetch_results jo ho k = fetch_results jo ho2 k ∧ rows ≠ []) ∧
    (∀ (jo ho : String → String → FetchOutcome) (k : CatKey) (le : Option Nat)
      (rows : List RawRow),
      tryCombos jo (jsonCombos k) none = .exhausted le →
      tryCombos ho (htmlCombos k) none = .found rows →
      fetch_results jo ho k = .ok rows) ∧
    (∀ (jo ho : String → String → FetchOutcome) (k : CatKey),
      (∀ pc ∈ jsonCombos k, isFoundB (jo pc.1 pc.2) = false) →
      (∀ pc ∈ htmlCombos k, isFoundB (ho pc.1 pc.2) = false) →
      ((errorsOf jo (jsonCombos k) ++ errorsOf ho (htmlCombos k) = [] →
          fetch_results jo ho k = .ok []) ∧
        (∀ e, (errorsOf jo (jsonCombos k) ++ errorsOf ho (htmlCombos k)).getLast? = some e →
          ∃ er, fetch_results jo ho k = .error er ∧ causeOf er = e))) := by
  refine ⟨?_, ?_, ?_⟩
  · intro jo ho ho2 k rows hf
    refine ⟨?_, ?_, tryCombos_found_ne_nil jo _ _ _ hf⟩
    · unfold fetch_results
      rw [hf]
    · unfold fetch_results
      rw [hf]
  · intro jo ho k le rows hex hf
    unfold fetch_results fetch_html_results
    rw [hex, hf]
    have hne := tryCombos_found_ne_nil ho _ _ _ hf
    have hempty : rows.isEmpty = false := by simpa [List.isEmpty_iff] using hne
    dsimp only
    rw [hempty]
    rfl
  · intro jo ho k hj hh
    have hexj : tryCombos jo (jsonCombos k) none =
        .exhausted ((errorsOf jo (jsonCombos k)).getLast?) := by
      simpa using tryCombos_exhausted jo (jsonCombos k) none hj
    have hexh : tryCombos ho (htmlCombos k) none =
        .exhausted ((errorsOf ho (htmlCombos k)).getLast?) := by
      simpa using tryCombos_exhausted ho (htmlCombos k) none hh
    have hcomp := fetch_results_eq_of_exhausted jo ho k _ _ hexj hexh
    cases hH : (errorsOf ho (htmlCombos k)).getLast? with
    | some eh =>
      rw [hH] at hcomp
      have hneH : errorsOf ho (htmlCombos k) ≠ [] := by
        intro h0
        rw [h0] at hH
        exact absurd hH (by simp)
      constructor
      · intro hnil
        exact absurd (List.append_eq_nil.mp hnil).2 hneH
      · intro e he
        rw [List.getLast?_append_of_ne_nil _ hneH, hH] at he
        obtain rfl := Option.some_injective _ he
        exact ⟨.htmlAllFailed eh, hcomp, rfl⟩
    | none =>
      have hHnil : errorsOf ho (htmlCombos k) = [] := by simpa using hH
      rw [hH] at hcomp
      cases hJ : (errorsOf jo (jsonCombos k)).getLast? with
      | some ej =>
        rw [hJ] at hcomp
        have hneJ : errorsOf jo (jsonCombos k) ≠ [] := by
          intro h0
          rw [h0] at hJ
          exact absurd hJ (by simp)
        constructor
        · intro hnil
          exact absurd (List.append_eq_nil.mp hnil).1 hneJ
        · intro e he
          rw [hHnil, List.append_nil, hJ] at he
          obtain rfl := Option.some_injective _ he
          exact ⟨.proxyAllFailed ej, hcomp, rfl⟩
      | none =>
        have hJnil : errorsOf jo (jsonCombos k) = [] := by simpa using hJ
        rw [hJ] at hcomp
        constructor
        · intro _
          exact hcomp
        · intro e he
          rw [hJnil, hHnil] at he
          exact absurd he (by simp)

/-- Witness for C1 at concrete oracles: every JSON attempt fails with
error 1 and every HTML attempt is cleanly empty, so the orchestrator
fails carrying cause 1. -/
theorem fetch_results_orchestration_witness :
    (∀ pc ∈ jsonCombos CatKey.movies_hd, isFoundB (jo0 pc.1 pc.2) = false) ∧
    (∀ pc ∈ htmlCombos CatKey.movies_hd, isFoundB (ho0 pc.1 pc.2) = false) ∧
    (∃ er, fetch_results jo0 ho0 CatKey.movies_hd = .error er ∧ causeOf er = 1) :=
  ⟨by decide, by decide,
   (fetch_results_orchestration.2.2 jo0 ho0 CatKey.movies_hd (by decide) (by decide)).2 1
     (by decide)⟩

end TMSG
